import Mathlib

/-!
Verification of the multi-tenant OAuth credential store of the Post-Bot
repository (services/encryption.py, services/token_store.py,
services/auth_service.py, backend/app.py), shallowly embedded in Lean.

The SQLite `accounts` table is modelled as a `List Row`; the process-wide
Fernet instance (`_get_fernet()`) is modelled as an `Option Cipher` value
threaded through the operations (`none` = `ENCRYPTION_KEY` not set).
The underlying Fernet primitive is modelled as a pair of partial functions
(`enc`/`dec` returning `Option`, `none` = the library call raised).
-/

/-- The `"ENC:"` marker the encryption service prepends to ciphertext. -/
def encTag : String := "ENC:"

/-- Abstract model of the Fernet primitive held by `_get_fernet()`:
`enc`/`dec` are the `fernet.encrypt`/`fernet.decrypt` calls, returning
`none` when the library call would raise. -/
structure Cipher where
  enc : String → Option String
  dec : String → Option String

/-- A well-functioning Fernet instance (a valid configured key): every
encryption succeeds and decryption inverts it. -/
def GoodCipher (c : Cipher) : Prop :=
  ∀ s : String, ∃ t : String, c.enc s = some t ∧ c.dec t = some s

/-- Model of Python `value.startswith('ENC:')` on a string value. -/
def startsWithTag (s : String) : Bool :=
  encTag.data.isPrefixOf s.data

/-- Model of `encrypt_value` (services/encryption.py, lines 75-104):
empty input returns `''`; with no key configured the plaintext is returned
unchanged; otherwise the tagged ciphertext, falling back to the plaintext
if the encryption call raises. -/
def encrypt_value (f : Option Cipher) (plaintext : String) : String :=
  if plaintext = "" then ""
  else
    match f with
    | none => plaintext
    | some c =>
      match c.enc plaintext with
      | some ct => encTag ++ ct
      | none => plaintext

/-- Model of `decrypt_value` (services/encryption.py, lines 107-142):
empty input returns `''`; an untagged value is legacy plaintext returned
as-is; a tagged value is stripped of the 4-character tag and decrypted,
failing secure to `''` when no key is configured or decryption raises. -/
def decrypt_value (f : Option Cipher) (encrypted : String) : String :=
  if encrypted = "" then ""
  else if startsWithTag encrypted then
    match f with
    | none => ""
    | some c =>
      match c.dec (encrypted.drop 4) with
      | some pt => pt
      | none => ""
  else encrypted

/-- Model of `is_encrypted` (services/encryption.py, lines 145-155):
`bool(value and value.startswith('ENC:'))`. -/
def is_encrypted_val (value : String) : Bool :=
  value ≠ "" && startsWithTag value

/-- One row of the `accounts` table (services/token_store.py, schema at
lines 82-95). `Option` models SQL NULL; `is_encrypted` is `INTEGER
DEFAULT 0` and may be NULL in legacy databases. -/
structure Row where
  user_id : Option String
  linkedin_user_urn : Option String
  access_token : Option String
  refresh_token : Option String
  github_username : Option String
  github_access_token : Option String
  expires_at : Option Int
  scopes : Option String
  is_encrypted : Option Int
deriving DecidableEq

/-- Python truthiness of an optional string (`None` and `''` are falsy). -/
def truthyStr (v : Option String) : Bool :=
  match v with
  | none => false
  | some s => s ≠ ""

/-- Encryption of the mandatory access-token argument of `save_token`:
`encrypt_value(access_token) if access_token else None` (line 157). -/
def encAccessOf (f : Option Cipher) (access_token : String) : Option String :=
  if access_token = "" then none else some (encrypt_value f access_token)

/-- Encryption of an optional secret argument:
`encrypt_value(v) if v else None` (lines 158-159, 222-223, 442). -/
def encOptOf (f : Option Cipher) (v : Option String) : Option String :=
  if truthyStr v then some (encrypt_value f (v.getD "")) else none

/-- Model of `save_token` (services/token_store.py, lines 117-183):
encrypts the three secret fields (falsy input stored as NULL), then
performs `INSERT ... ON CONFLICT(linkedin_user_urn) DO UPDATE` setting
every field and `is_encrypted = 1`. -/
def save_token (f : Option Cipher) (linkedin_user_urn : String)
    (access_token : String) (refresh_token : Option String)
    (expires_at : Option Int) (user_id : Option String)
    (github_username : Option String) (github_access_token : Option String)
    (scopes : Option String) (db : List Row) : List Row :=
  if db.any (fun r => r.linkedin_user_urn == some linkedin_user_urn) then
    db.map (fun r =>
      if r.linkedin_user_urn == some linkedin_user_urn then
        { r with
          access_token := encAccessOf f access_token
          refresh_token := encOptOf f refresh_token
          expires_at := expires_at
          user_id := user_id
          github_username := github_username
          github_access_token := encOptOf f github_access_token
          scopes := scopes
          is_encrypted := some 1 }
      else r)
  else
    db ++ [{ user_id := user_id
             linkedin_user_urn := some linkedin_user_urn
             access_token := encAccessOf f access_token
             refresh_token := encOptOf f refresh_token
             github_username := github_username
             github_access_token := encOptOf f github_access_token
             expires_at := expires_at
             scopes := scopes
             is_encrypted := some 1 }]

/-- Decryption of the three secret fields of a fetched row, as done in the
`is_encrypted == 1` branch of `_migrate_if_plaintext` (lines 207-214);
`dict.get` yields the stored value (possibly `None`, decrypted to `''`). -/
def decRow (f : Option Cipher) (row : Row) : Row :=
  { row with
    access_token := some (decrypt_value f (row.access_token.getD ""))
    refresh_token := some (decrypt_value f (row.refresh_token.getD ""))
    github_access_token := some (decrypt_value f (row.github_access_token.getD "")) }

/-- SQL match `linkedin_user_urn = ?` where the parameter is the (possibly
NULL) urn of the fetched row: `NULL = NULL` is not true in SQL. -/
def matchesUrn (u? : Option String) (r : Row) : Bool :=
  match u? with
  | none => false
  | some u => r.linkedin_user_urn == some u

/-- SQL condition `(is_encrypted=0 OR is_encrypted IS NULL)`. -/
def unencFlag (r : Row) : Bool :=
  r.is_encrypted == some 0 || r.is_encrypted == none

/-- The row update performed by the conditional migration UPDATE
(lines 233-242) on rows satisfying its WHERE clause. -/
def migUpdate (f : Option Cipher) (row : Row) (r : Row) : Row :=
  if matchesUrn row.linkedin_user_urn r && unencFlag r then
    { r with
      access_token := some (encrypt_value f (row.access_token.getD ""))
      refresh_token := encOptOf f row.refresh_token
      github_access_token := encOptOf f row.github_access_token
      is_encrypted := some 1 }
  else r

/-- Model of `_migrate_if_plaintext` (services/token_store.py, lines
186-267): an already-encrypted row is decrypted for use with no write; a
legacy row with an untagged access token is encrypted in memory and
written back by one conditional UPDATE (zero affected rows is success);
the original row values are returned to the caller in every legacy path. -/
def migrate_if_plaintext (f : Option Cipher) (row : Row) (db : List Row) :
    Row × List Row :=
  if row.is_encrypted = some 1 then
    (decRow f row, db)
  else if is_encrypted_val (row.access_token.getD "") then
    (row, db)
  else
    (row, db.map (migUpdate f row))

/-- Model of `get_token_by_user_id` (services/token_store.py, lines
315-366): `SELECT ... WHERE user_id=?` then `fetchone()`, then
`_migrate_if_plaintext`. Returns the row handed to the caller and the
resulting table state. -/
def get_token_by_user_id (f : Option Cipher) (user_id : String)
    (db : List Row) : Option Row × List Row :=
  match db.find? (fun r => r.user_id == some user_id) with
  | none => (none, db)
  | some row =>
    (some (migrate_if_plaintext f row db).1, (migrate_if_plaintext f row db).2)

/-- Model of `get_token_by_urn` (services/token_store.py, lines 270-312):
same as `get_token_by_user_id` but keyed on `linkedin_user_urn`. -/
def get_token_by_urn (f : Option Cipher) (linkedin_user_urn : String)
    (db : List Row) : Option Row × List Row :=
  match db.find? (fun r => r.linkedin_user_urn == some linkedin_user_urn) with
  | none => (none, db)
  | some row =>
    (some (migrate_if_plaintext f row db).1, (migrate_if_plaintext f row db).2)

/-- Result of `get_connection_status` (services/token_store.py, lines
369-407): either the two-field not-found dict or the six-field status
dict. -/
inductive ConnStatus where
  | notFound : ConnStatus
  | found (linkedin_connected : Bool) (linkedin_urn : String)
      (github_connected : Bool) (github_username : String)
      (token_expires_at : Option Int) (scopes : String) : ConnStatus
deriving DecidableEq

/-- Model of `get_connection_status`: selects only the non-secret columns
`linkedin_user_urn, github_username, expires_at, scopes` of the tenant's
row and returns booleans plus those values (`x or ''` for strings). -/
def get_connection_status (user_id : String) (db : List Row) : ConnStatus :=
  match db.find? (fun r => r.user_id == some user_id) with
  | none => ConnStatus.notFound
  | some r =>
    ConnStatus.found (truthyStr r.linkedin_user_urn) (r.linkedin_user_urn.getD "")
      (truthyStr r.github_username) (r.github_username.getD "")
      r.expires_at (r.scopes.getD "")

/-- The string values contained in a `get_connection_status` result. -/
def statusStrings : ConnStatus → List String
  | ConnStatus.notFound => []
  | ConnStatus.found _ urn _ gh _ sc => [urn, gh, sc]

/-- Model of `save_github_token` (services/token_store.py, lines 410-453):
fails if the tenant has no row; otherwise encrypts the optional PAT and
runs `UPDATE ... SET github_username=?, github_access_token=? WHERE
user_id=?`. -/
def save_github_token (f : Option Cipher) (user_id : String)
    (github_username : String) (github_access_token : Option String)
    (db : List Row) : Bool × List Row :=
  match db.find? (fun r => r.user_id == some user_id) with
  | none => (false, db)
  | some _ =>
    (true, db.map (fun r =>
      if r.user_id == some user_id then
        { r with github_username := some github_username
                 github_access_token := encOptOf f github_access_token }
      else r))

/-- Modelled from the spec: `delete_by_user_id(user_id) -> bool` is the
Credential Store's tenant-scoped hard delete (spec section 4.2). The
symbol `delete_token_by_user_id` is imported by `backend/app.py` (line
58) but its definition is not present under `src/`; following the spec it
removes the tenant's row permanently and returns whether a row existed. -/
def delete_token_by_user_id (user_id : String) (db : List Row) :
    Bool × List Row :=
  (db.any (fun r => r.user_id == some user_id),
   db.filter (fun r => r.user_id != some user_id))

/-- The dict returned by `refresh_access_token` (services/auth_service.py,
lines 267-311) once the provider round trip succeeded. -/
structure RefreshResp where
  access_token : String
  refresh_token : Option String
  expires_at : Option Int
deriving DecidableEq

/-- Error kinds of `get_access_token_for_urn` (spec section 7): the
`RuntimeError` raised when no row is stored, and the one raised when a
near-expiry token has no refresh token. -/
inductive AuthErr where
  | NoCredential : AuthErr
  | RefreshUnavailable : AuthErr
deriving DecidableEq

/-- Observable outcome of `get_access_token_for_urn`: the returned token
(or error), whether the provider refresh endpoint was called, and the
resulting table state. -/
inductive AuthResult where
  | ok (token : Option String) (didRefresh : Bool) (db : List Row) : AuthResult
  | err (e : AuthErr) (db : List Row) : AuthResult
deriving DecidableEq

/-- Table state after the call. -/
def AuthResult.db : AuthResult → List Row
  | AuthResult.ok _ _ d => d
  | AuthResult.err _ d => d

/-- Whether the provider refresh endpoint was called. -/
def AuthResult.didRefresh : AuthResult → Bool
  | AuthResult.ok _ b _ => b
  | AuthResult.err _ _ => false

/-- The near-expiry test of `get_access_token_for_urn` (line 345):
`if expires_at and (expires_at - now) <= refresh_buffer`. Python
truthiness treats both `None` and `0` as no expiry. -/
def needsRefresh (expires_at : Option Int) (now refresh_buffer : Int) : Bool :=
  match expires_at with
  | none => false
  | some t => t != 0 && decide (t - now ≤ refresh_buffer)

/-- Model of `get_access_token_for_urn` (services/auth_service.py, lines
314-360): fetch the stored record (raising `NoCredential` if absent),
check near-expiry, then either refresh through the provider
(`refreshFn`, standing for `refresh_access_token`) and persist via
`save_token(urn, access, refresh, expires)` — every other argument left
at its default `None` — or raise `RefreshUnavailable`, or return the
stored access token. -/
def get_access_token_for_urn (f : Option Cipher) (refreshFn : String → RefreshResp)
    (now : Int) (linkedin_user_urn : String) (refresh_buffer : Int)
    (db : List Row) : AuthResult :=
  match get_token_by_urn f linkedin_user_urn db with
  | (none, db1) => AuthResult.err AuthErr.NoCredential db1
  | (some row, db1) =>
    if needsRefresh row.expires_at now refresh_buffer then
      if truthyStr row.refresh_token then
        AuthResult.ok (some (refreshFn (row.refresh_token.getD "")).access_token) true
          (save_token f linkedin_user_urn
            (refreshFn (row.refresh_token.getD "")).access_token
            (refreshFn (row.refresh_token.getD "")).refresh_token
            (refreshFn (row.refresh_token.getD "")).expires_at none none none none db1)
      else AuthResult.err AuthErr.RefreshUnavailable db1
    else AuthResult.ok row.access_token false db1

/-- States of the `accounts` table reachable from an empty database
through the credential store operations and the token-refresh path. -/
inductive Reachable (f : Option Cipher) : List Row → Prop where
  | init : Reachable f []
  | save (urn access : String) (refresh : Option String) (exp : Option Int)
      (uid gu gt sc : Option String) {db : List Row} :
      Reachable f db → Reachable f (save_token f urn access refresh exp uid gu gt sc db)
  | saveGithub (uid gu : String) (gt : Option String) {db : List Row} :
      Reachable f db → Reachable f (save_github_token f uid gu gt db).2
  | getByUser (uid : String) {db : List Row} :
      Reachable f db → Reachable f (get_token_by_user_id f uid db).2
  | getByUrn (urn : String) {db : List Row} :
      Reachable f db → Reachable f (get_token_by_urn f urn db).2
  | del (uid : String) {db : List Row} :
      Reachable f db → Reachable f (delete_token_by_user_id uid db).2
  | auth (refreshFn : String → RefreshResp) (now : Int) (urn : String)
      (buf : Int) {db : List Row} :
      Reachable f db →
      Reachable f (get_access_token_for_urn f refreshFn now urn buf db).db

/-- At most one row of the table carries any given (non-null)
`linkedin_user_urn` — the `TEXT UNIQUE` constraint of the schema. -/
def urnUnique (db : List Row) : Prop :=
  ∀ u : String, db.countP (fun r => r.linkedin_user_urn == some u) ≤ 1

/-- A stored secret field is NULL or carries the ciphertext tag. -/
def tagOrNull (v : Option String) : Bool :=
  match v with
  | none => true
  | some s => startsWithTag s

/-- A row is flagged encrypted and all three secret fields are NULL or
tag-prefixed. -/
def rowEncrypted (r : Row) : Prop :=
  r.is_encrypted = some 1 ∧ tagOrNull r.access_token = true ∧
  tagOrNull r.refresh_token = true ∧ tagOrNull r.github_access_token = true

/-- The identity codec: a concrete `GoodCipher` used to instantiate
theorems at specific inputs. -/
def idCipher : Cipher :=
  ⟨fun s => some s, fun s => some s⟩

/-- A non-secret optional string field that does not itself carry the
ciphertext tag. -/
def tagFreeOpt (v : Option String) : Bool :=
  match v with
  | none => true
  | some s => !(startsWithTag s)

/-- Two table states agree on every non-secret field and differ at most
in the three token columns. -/
def TokensOnlyDiff : List Row → List Row → Prop :=
  List.Forall₂ (fun a b =>
    a.user_id = b.user_id ∧ a.linkedin_user_urn = b.linkedin_user_urn ∧
    a.github_username = b.github_username ∧ a.expires_at = b.expires_at ∧
    a.scopes = b.scopes)

/-- The error kind of an auth result, if it failed. -/
def AuthResult.errKind : AuthResult → Option AuthErr
  | AuthResult.ok _ _ _ => none
  | AuthResult.err e _ => some e

/-- Fixture: a legacy plaintext row (all secrets unencrypted,
`is_encrypted = 0`). -/
def legacyRow : Row :=
  { user_id := some "u1", linkedin_user_urn := some "urn1",
    access_token := some "pa", refresh_token := some "pr",
    github_username := some "gh", github_access_token := some "pg",
    expires_at := some 50, scopes := some "w", is_encrypted := some 0 }

/-- Fixture: the same row after migration under the identity codec. -/
def migratedRow : Row :=
  { user_id := some "u1", linkedin_user_urn := some "urn1",
    access_token := some "ENC:pa", refresh_token := some "ENC:pr",
    github_username := some "gh", github_access_token := some "ENC:pg",
    expires_at := some 50, scopes := some "w", is_encrypted := some 1 }

/-- Fixture: an encrypted row whose `expires_at` is the integer `0` and
which has a refresh token. -/
def rowExp0 : Row :=
  { user_id := some "u1", linkedin_user_urn := some "urn1",
    access_token := some "ENC:atok", refresh_token := some "ENC:rtok",
    github_username := none, github_access_token := none,
    expires_at := some 0, scopes := none, is_encrypted := some 1 }

/-- Fixture: a legacy plaintext row with a refresh token and a far-away
expiry. -/
def legacyFarRow : Row :=
  { user_id := some "u1", linkedin_user_urn := some "urn1",
    access_token := some "pa", refresh_token := some "pr",
    github_username := none, github_access_token := none,
    expires_at := some 1000, scopes := none, is_encrypted := some 0 }

/-- Fixture: an encrypted, already-expired row with no refresh token. -/
def rowNoRefresh : Row :=
  { user_id := some "u1", linkedin_user_urn := some "urn1",
    access_token := some "ENC:atok", refresh_token := none,
    github_username := none, github_access_token := none,
    expires_at := some 50, scopes := none, is_encrypted := some 1 }

/-- Fixture: an encrypted row with `expires_at = 0` and no refresh
token. -/
def rowExp0NoR : Row :=
  { user_id := some "u1", linkedin_user_urn := some "urn1",
    access_token := some "ENC:atok", refresh_token := none,
    github_username := none, github_access_token := none,
    expires_at := some 0, scopes := none, is_encrypted := some 1 }

/-- Fixture: a legacy plaintext row with no refresh token, already
expired. -/
def legacyNoRefreshRow : Row :=
  { user_id := some "u1", linkedin_user_urn := some "urn1",
    access_token := some "pa", refresh_token := none,
    github_username := none, github_access_token := none,
    expires_at := some 50, scopes := none, is_encrypted := some 0 }

/-- Tag recognition on an appended tag is true. -/
theorem startsWithTag_append (ct : String) : startsWithTag (encTag ++ ct) = true := by
  have hd : (encTag ++ ct).data = encTag.data ++ ct.data := String.data_append _ _
  unfold startsWithTag
  rw [hd]
  have : ∀ (l₁ l₂ : List Char), l₁.isPrefixOf (l₁ ++ l₂) = true := by
    intro l₁ l₂
    induction l₁ with
    | nil => simp [List.isPrefixOf]
    | cons a as ih => simp [List.isPrefixOf, ih]
  exact this _ _

/-- Stripping the 4-character tag from a tagged value recovers the payload. -/
theorem drop_encTag (ct : String) : (encTag ++ ct).drop 4 = ct := by
  apply String.ext
  rw [String.data_drop, String.data_append]
  show List.drop 4 (encTag.data ++ ct.data) = ct.data
  have he : encTag.data = ['E', 'N', 'C', ':'] := rfl
  rw [he]
  rfl

/-- A tagged value is a nonempty string. -/
theorem encTag_append_ne (ct : String) : (encTag ++ ct) ≠ "" := by
  intro h
  have : (encTag ++ ct).data = "".data := by rw [h]
  rw [String.data_append] at this
  simp [encTag] at this

/-- C6: for every plaintext and every valid configured key,
`decrypt_value (encrypt_value p) = p`, and both functions map the empty
string to the empty string. -/
theorem c6_roundtrip (c : Cipher) (hc : GoodCipher c) :
    encrypt_value (some c) "" = "" ∧ decrypt_value (some c) "" = "" ∧
    ∀ p : String, decrypt_value (some c) (encrypt_value (some c) p) = p := by
  refine ⟨rfl, rfl, ?_⟩
  intro p
  by_cases hp : p = ""
  · subst hp; rfl
  · obtain ⟨t, henc, hdec⟩ := hc p
    have he : encrypt_value (some c) p = encTag ++ t := by
      unfold encrypt_value
      rw [if_neg hp]
      show (match c.enc p with
            | some ct => encTag ++ ct
            | none => p) = encTag ++ t
      rw [henc]
    rw [he]
    unfold decrypt_value
    rw [if_neg (encTag_append_ne t)]
    rw [if_pos (by rw [startsWithTag_append t])]
    show (match c.dec ((encTag ++ t).drop 4) with
          | some pt => pt
          | none => "") = p
    rw [drop_encTag, hdec]

/-- Witness for C6 at a concrete cipher (the identity codec, which is a
`GoodCipher`) and concrete plaintexts. -/
theorem c6_witness :
    encrypt_value (some ⟨fun s => some s, fun s => some s⟩) "" = "" ∧
    decrypt_value (some ⟨fun s => some s, fun s => some s⟩) "" = "" ∧
    decrypt_value (some ⟨fun s => some s, fun s => some s⟩)
      (encrypt_value (some ⟨fun s => some s, fun s => some s⟩) "tok123") = "tok123" := by
  have h := c6_roundtrip ⟨fun s => some s, fun s => some s⟩
    (fun s => ⟨s, rfl, rfl⟩)
  exact ⟨h.1, h.2.1, h.2.2 "tok123"⟩

/-- Mapping a row transformer that does not change a predicate leaves the
predicate count unchanged. -/
theorem countP_map_pres (p : Row → Bool) (g : Row → Row)
    (hg : ∀ r, p (g r) = p r) (db : List Row) :
    (db.map g).countP p = db.countP p := by
  induction db with
  | nil => rfl
  | cons a l ih => simp [List.countP_cons, ih, hg]

/-- Mapping a row transformer that does not change a predicate commutes
with `find?` on that predicate. -/
theorem find?_map_pres (p : Row → Bool) (g : Row → Row)
    (hg : ∀ r, p (g r) = p r) (db : List Row) :
    (db.map g).find? p = (db.find? p).map g := by
  have hp : (p ∘ g) = p := funext hg
  rw [List.find?_map, hp]

/-- A map that fixes every element of the list is the identity. -/
theorem map_id_of_mem {g : Row → Row} {db : List Row}
    (h : ∀ r ∈ db, g r = r) : db.map g = db := by
  induction db with
  | nil => rfl
  | cons a l ih =>
    rw [List.map_cons, h a (by simp), ih (fun r hr => h r (by simp [hr]))]

/-- The migration update never changes `linkedin_user_urn`. -/
theorem migUpdate_urn (f : Option Cipher) (row r : Row) :
    (migUpdate f row r).linkedin_user_urn = r.linkedin_user_urn := by
  unfold migUpdate
  split <;> rfl

/-- The migration update never changes `user_id`. -/
theorem migUpdate_user (f : Option Cipher) (row r : Row) :
    (migUpdate f row r).user_id = r.user_id := by
  unfold migUpdate
  split <;> rfl

/-- The table returned by `migrate_if_plaintext` is the input table or a
`migUpdate` image of it. -/
theorem migrate_db_cases (f : Option Cipher) (row : Row) (db : List Row) :
    (migrate_if_plaintext f row db).2 = db ∨
    (migrate_if_plaintext f row db).2 = db.map (migUpdate f row) := by
  unfold migrate_if_plaintext
  split
  · exact Or.inl rfl
  · split
    · exact Or.inl rfl
    · exact Or.inr rfl

/-- `save_token` preserves uniqueness of `linkedin_user_urn`. -/
theorem save_token_urnUnique (f : Option Cipher) (urn access : String)
    (refresh : Option String) (exp : Option Int) (uid gu gt sc : Option String)
    {db : List Row} (h : urnUnique db) :
    urnUnique (save_token f urn access refresh exp uid gu gt sc db) := by
  intro u
  unfold save_token
  split
  · rw [countP_map_pres]
    · exact h u
    · intro r
      by_cases hr : r.linkedin_user_urn == some urn <;> simp [hr]
  · rename_i hany
    rw [List.countP_append]
    by_cases hu : u = urn
    · subst hu
      have hz : db.countP (fun r => r.linkedin_user_urn == some u) = 0 := by
        rw [List.countP_eq_zero]
        intro r hr
        intro hc
        exact hany (List.any_eq_true.2 ⟨r, hr, hc⟩)
      simp [hz, List.countP_cons]
    · have hne : ((some urn == some u) : Bool) = false :=
        beq_eq_false_iff_ne.2 (fun hcc => hu (Option.some.inj hcc).symm)
      simp only [List.countP_cons, List.countP_nil, hne]
      simpa using h u

/-- `migrate_if_plaintext` preserves uniqueness of `linkedin_user_urn`. -/
theorem migrate_urnUnique (f : Option Cipher) (row : Row) {db : List Row}
    (h : urnUnique db) : urnUnique (migrate_if_plaintext f row db).2 := by
  rcases migrate_db_cases f row db with hc | hc <;> rw [hc]
  · exact h
  · intro u
    rw [countP_map_pres]
    · exact h u
    · intro r
      rw [migUpdate_urn]

/-- `get_token_by_user_id` preserves uniqueness of `linkedin_user_urn`. -/
theorem get_by_user_urnUnique (f : Option Cipher) (uid : String)
    {db : List Row} (h : urnUnique db) :
    urnUnique (get_token_by_user_id f uid db).2 := by
  unfold get_token_by_user_id
  cases hf : db.find? (fun r => r.user_id == some uid) with
  | none => exact h
  | some row => exact migrate_urnUnique f row h

/-- `get_token_by_urn` preserves uniqueness of `linkedin_user_urn`. -/
theorem get_by_urn_urnUnique (f : Option Cipher) (urn : String)
    {db : List Row} (h : urnUnique db) :
    urnUnique (get_token_by_urn f urn db).2 := by
  unfold get_token_by_urn
  cases hf : db.find? (fun r => r.linkedin_user_urn == some urn) with
  | none => exact h
  | some row => exact migrate_urnUnique f row h

/-- `save_github_token` preserves uniqueness of `linkedin_user_urn`. -/
theorem save_github_urnUnique (f : Option Cipher) (uid gu : String)
    (gt : Option String) {db : List Row} (h : urnUnique db) :
    urnUnique (save_github_token f uid gu gt db).2 := by
  unfold save_github_token
  cases hf : db.find? (fun r => r.user_id == some uid) with
  | none => exact h
  | some _ =>
    intro u
    show (db.map _).countP _ ≤ 1
    rw [countP_map_pres]
    · exact h u
    · intro r
      by_cases hr : r.user_id == some uid <;> simp [hr]

/-- `delete_token_by_user_id` preserves uniqueness of `linkedin_user_urn`. -/
theorem delete_urnUnique (uid : String) {db : List Row} (h : urnUnique db) :
    urnUnique (delete_token_by_user_id uid db).2 := by
  intro u
  exact le_trans (List.Sublist.countP_le _ (List.filter_sublist db)) (h u)

/-- The table state after `get_access_token_for_urn` is either the state
after the read, or a `save_token` applied to it. -/
theorem auth_db_cases (f : Option Cipher) (refreshFn : String → RefreshResp)
    (now : Int) (urn : String) (buf : Int) (db : List Row) :
    (get_access_token_for_urn f refreshFn now urn buf db).db =
      (get_token_by_urn f urn db).2 ∨
    ∃ resp : RefreshResp,
      (get_access_token_for_urn f refreshFn now urn buf db).db =
        save_token f urn resp.access_token resp.refresh_token resp.expires_at
          none none none none (get_token_by_urn f urn db).2 := by
  unfold get_access_token_for_urn
  cases hg : get_token_by_urn f urn db with
  | mk rowOpt db1 =>
    cases rowOpt with
    | none => exact Or.inl rfl
    | some row =>
      by_cases hn : needsRefresh row.expires_at now buf = true
      · by_cases ht : truthyStr row.refresh_token = true
        · exact Or.inr ⟨refreshFn (row.refresh_token.getD ""),
            by simp [hn, ht, AuthResult.db]⟩
        · exact Or.inl (by simp [hn, ht, AuthResult.db])
      · exact Or.inl (by simp [hn, AuthResult.db])

/-- `get_access_token_for_urn` preserves uniqueness of
`linkedin_user_urn`. -/
theorem auth_urnUnique (f : Option Cipher) (refreshFn : String → RefreshResp)
    (now : Int) (urn : String) (buf : Int) {db : List Row} (h : urnUnique db) :
    urnUnique (get_access_token_for_urn f refreshFn now urn buf db).db := by
  have h1 : urnUnique (get_token_by_urn f urn db).2 :=
    get_by_urn_urnUnique f urn h
  rcases auth_db_cases f refreshFn now urn buf db with hc | ⟨resp, hc⟩ <;> rw [hc]
  · exact h1
  · exact save_token_urnUnique f urn _ _ _ _ _ _ _ h1

/-- C2 (amended): in every state reachable through the Credential Store
operations, at most one `accounts` row exists per `linkedin_user_urn`
(`provider_subject_urn`); `save_token` upserts keyed by that urn, not by
the tenant id, so per-`user_id` uniqueness is not an invariant of the
code. -/
theorem c2_urn_unique_reachable (f : Option Cipher) {db : List Row}
    (h : Reachable f db) : urnUnique db := by
  induction h with
  | init => intro u; simp
  | save urn access refresh exp uid gu gt sc _ ih =>
    exact save_token_urnUnique f urn access refresh exp uid gu gt sc ih
  | saveGithub uid gu gt _ ih => exact save_github_urnUnique f uid gu gt ih
  | getByUser uid _ ih => exact get_by_user_urnUnique f uid ih
  | getByUrn urn _ ih => exact get_by_urn_urnUnique f urn ih
  | del uid _ ih => exact delete_urnUnique uid ih
  | auth refreshFn now urn buf _ ih => exact auth_urnUnique f refreshFn now urn buf ih

/-- C2 counterexample: a second `save_token` for the same `user_id` with a
different provider identity inserts a second row for that tenant instead
of updating the tenant's single row (left conjunct: two rows for
`"u1"`), and a save with the urn of another tenant's row rebinds that
row's `user_id` in place (right conjunct). -/
theorem c2_counterexample :
    ((save_token none "urn2" "tokB" none none (some "u1") none none none
      (save_token none "urn1" "tokA" none none (some "u1") none none none
        [])).countP (fun r => r.user_id == some "u1") = 2) ∧
    ((save_token none "urn1" "tokC" none none (some "u2") none none none
      (save_token none "urn1" "tokA" none none (some "u1") none none none
        [])).map Row.user_id = [some "u2"]) := by
  constructor
  · decide
  · decide

/-- Witness for C2 at a concrete reachable state. -/
theorem c2_witness :
    urnUnique (save_token none "urn1" "tokA" none none (some "u1") none none
      none []) :=
  c2_urn_unique_reachable none
    (Reachable.save "urn1" "tokA" none none (some "u1") none none none
      Reachable.init)

/-- The identity codec is a good cipher. -/
theorem idCipher_good : GoodCipher idCipher :=
  fun s => ⟨s, rfl, rfl⟩

/-- With a good cipher, encrypting a nonempty plaintext yields a tagged
value. -/
theorem encrypt_tagged (c : Cipher) (hc : GoodCipher c) (p : String)
    (hp : p ≠ "") : ∃ ct, encrypt_value (some c) p = encTag ++ ct := by
  obtain ⟨t, henc, _⟩ := hc p
  refine ⟨t, ?_⟩
  unfold encrypt_value
  rw [if_neg hp]
  show (match c.enc p with
        | some ct => encTag ++ ct
        | none => p) = encTag ++ t
  rw [henc]

/-- With a good cipher, `encAccessOf` is NULL or tagged. -/
theorem tagOrNull_encAccessOf (c : Cipher) (hc : GoodCipher c)
    (access : String) : tagOrNull (encAccessOf (some c) access) = true := by
  unfold encAccessOf
  by_cases h : access = ""
  · simp [h, tagOrNull]
  · rw [if_neg h]
    obtain ⟨ct, hct⟩ := encrypt_tagged c hc access h
    simp [tagOrNull, hct, startsWithTag_append]

/-- With a good cipher, `encOptOf` is NULL or tagged. -/
theorem tagOrNull_encOptOf (c : Cipher) (hc : GoodCipher c)
    (v : Option String) : tagOrNull (encOptOf (some c) v) = true := by
  unfold encOptOf
  by_cases h : truthyStr v = true
  · rw [if_pos h]
    have hne : v.getD "" ≠ "" := by
      cases v with
      | none => simp [truthyStr] at h
      | some s => simpa [truthyStr] using h
    obtain ⟨ct, hct⟩ := encrypt_tagged c hc _ hne
    simp [tagOrNull, hct, startsWithTag_append]
  · rw [if_neg h]
    rfl

/-- With a good cipher, every row written by `save_token` satisfies
`rowEncrypted`, given the prior table did. -/
theorem save_token_encInv (c : Cipher) (hc : GoodCipher c)
    (urn access : String) (refresh : Option String) (exp : Option Int)
    (uid gu gt sc : Option String) {db : List Row}
    (h : ∀ r ∈ db, rowEncrypted r) :
    ∀ r ∈ save_token (some c) urn access refresh exp uid gu gt sc db,
      rowEncrypted r := by
  unfold save_token
  split
  · intro r hr
    rw [List.mem_map] at hr
    obtain ⟨r0, hr0, rfl⟩ := hr
    by_cases hm : (r0.linkedin_user_urn == some urn) = true
    · rw [if_pos hm]
      exact ⟨rfl, tagOrNull_encAccessOf c hc access,
        tagOrNull_encOptOf c hc refresh, tagOrNull_encOptOf c hc gt⟩
    · rw [if_neg hm]
      exact h r0 hr0
  · intro r hr
    rw [List.mem_append] at hr
    rcases hr with hr | hr
    · exact h r hr
    · rw [List.mem_singleton] at hr
      subst hr
      exact ⟨rfl, tagOrNull_encAccessOf c hc access,
        tagOrNull_encOptOf c hc refresh, tagOrNull_encOptOf c hc gt⟩

/-- On an already-encrypted fetched row the migration writes nothing. -/
theorem migrate_under_inv {f : Option Cipher} {row : Row} {db : List Row}
    (hrow : row.is_encrypted = some 1) :
    (migrate_if_plaintext f row db).2 = db := by
  unfold migrate_if_plaintext
  rw [if_pos hrow]

/-- Under the encrypted-at-rest invariant, `get_token_by_user_id` does not
change the table. -/
theorem get_by_user_under_inv (f : Option Cipher) (uid : String)
    {db : List Row} (h : ∀ r ∈ db, rowEncrypted r) :
    (get_token_by_user_id f uid db).2 = db := by
  unfold get_token_by_user_id
  cases hf : db.find? (fun r => r.user_id == some uid) with
  | none => rfl
  | some row => exact migrate_under_inv (h row (List.mem_of_find?_eq_some hf)).1

/-- Under the encrypted-at-rest invariant, `get_token_by_urn` does not
change the table. -/
theorem get_by_urn_under_inv (f : Option Cipher) (urn : String)
    {db : List Row} (h : ∀ r ∈ db, rowEncrypted r) :
    (get_token_by_urn f urn db).2 = db := by
  unfold get_token_by_urn
  cases hf : db.find? (fun r => r.linkedin_user_urn == some urn) with
  | none => rfl
  | some row => exact migrate_under_inv (h row (List.mem_of_find?_eq_some hf)).1

/-- With a good cipher, `save_github_token` preserves `rowEncrypted`. -/
theorem save_github_encInv (c : Cipher) (hc : GoodCipher c)
    (uid gu : String) (gt : Option String) {db : List Row}
    (h : ∀ r ∈ db, rowEncrypted r) :
    ∀ r ∈ (save_github_token (some c) uid gu gt db).2, rowEncrypted r := by
  unfold save_github_token
  cases hf : db.find? (fun r => r.user_id == some uid) with
  | none => exact h
  | some r0 =>
    intro r hr
    rw [List.mem_map] at hr
    obtain ⟨r1, hr1, rfl⟩ := hr
    by_cases hm : (r1.user_id == some uid) = true
    · rw [if_pos hm]
      exact ⟨(h r1 hr1).1, (h r1 hr1).2.1, (h r1 hr1).2.2.1,
        tagOrNull_encOptOf c hc gt⟩
    · rw [if_neg hm]
      exact h r1 hr1

/-- `delete_token_by_user_id` preserves `rowEncrypted`. -/
theorem delete_encInv (uid : String) {db : List Row}
    (h : ∀ r ∈ db, rowEncrypted r) :
    ∀ r ∈ (delete_token_by_user_id uid db).2, rowEncrypted r := by
  intro r hr
  exact h r (List.mem_of_mem_filter hr)

/-- With a good cipher, `get_access_token_for_urn` preserves
`rowEncrypted`. -/
theorem auth_encInv (c : Cipher) (hc : GoodCipher c)
    (refreshFn : String → RefreshResp) (now : Int) (urn : String) (buf : Int)
    {db : List Row} (h : ∀ r ∈ db, rowEncrypted r) :
    ∀ r ∈ (get_access_token_for_urn (some c) refreshFn now urn buf db).db,
      rowEncrypted r := by
  have hread : (get_token_by_urn (some c) urn db).2 = db :=
    get_by_urn_under_inv (some c) urn h
  rcases auth_db_cases (some c) refreshFn now urn buf db with hc2 | ⟨resp, hc2⟩ <;>
    rw [hc2, hread]
  · exact h
  · exact save_token_encInv c hc urn resp.access_token resp.refresh_token
      resp.expires_at none none none none h

/-- C1 (amended): with an encryption key configured and the encryption
primitive functioning, every row of every reachable table state is
flagged `is_encrypted = 1` with all three secret fields NULL or
`ENC:`-tagged; and after any `save_token` with a nonempty access token,
the stored row for that urn is flagged and its access token value is
tag-prefixed. (Without a key, `save_token` still sets `is_encrypted = 1`
but stores the plaintext — see the counterexample.) -/
theorem c1_encrypted_at_rest (c : Cipher) (hc : GoodCipher c) :
    (∀ db : List Row, Reachable (some c) db → ∀ r ∈ db, rowEncrypted r) ∧
    (∀ (urn access : String) (refresh : Option String) (exp : Option Int)
        (uid gu gt sc : Option String) (db : List Row), access ≠ "" →
      ∀ r ∈ save_token (some c) urn access refresh exp uid gu gt sc db,
        r.linkedin_user_urn = some urn →
        r.is_encrypted = some 1 ∧ ∃ ct, r.access_token = some (encTag ++ ct)) := by
  constructor
  · intro db hdb
    induction hdb with
    | init => intro r hr; cases hr
    | save urn access refresh exp uid gu gt sc _ ih =>
      exact save_token_encInv c hc urn access refresh exp uid gu gt sc ih
    | saveGithub uid gu gt _ ih => exact save_github_encInv c hc uid gu gt ih
    | getByUser uid _ ih =>
      rw [get_by_user_under_inv (some c) uid ih]
      exact ih
    | getByUrn urn _ ih =>
      rw [get_by_urn_under_inv (some c) urn ih]
      exact ih
    | del uid _ ih => exact delete_encInv uid ih
    | auth refreshFn now urn buf _ ih =>
      exact auth_encInv c hc refreshFn now urn buf ih
  · intro urn access refresh exp uid gu gt sc db hacc r hr hurn
    obtain ⟨ct, hct⟩ := encrypt_tagged c hc access hacc
    have haccval : encAccessOf (some c) access = some (encTag ++ ct) := by
      unfold encAccessOf
      rw [if_neg hacc, hct]
    unfold save_token at hr
    rcases Decidable.em
        ((db.any (fun r => r.linkedin_user_urn == some urn)) = true) with hany | hany
    · rw [if_pos hany] at hr
      rw [List.mem_map] at hr
      obtain ⟨r0, hr0, rfl⟩ := hr
      by_cases hm : (r0.linkedin_user_urn == some urn) = true
      · rw [if_pos hm]
        exact ⟨rfl, ct, haccval⟩
      · rw [if_neg hm] at hurn ⊢
        exact absurd (by rw [hurn]; exact beq_self_eq_true _) hm
    · rw [if_neg hany] at hr
      rw [List.mem_append] at hr
      rcases hr with hr | hr
      · exact absurd (List.any_eq_true.2 ⟨r, hr, by rw [hurn]; exact beq_self_eq_true _⟩) hany
      · rw [List.mem_singleton] at hr
        subst hr
        exact ⟨rfl, ct, haccval⟩

/-- C1 counterexample: with no encryption key configured, `save_token`
stores the access token in plaintext while still flagging the row
`is_encrypted = 1` — so `is_encrypted = 1` does not imply a tag-prefixed
token value. -/
theorem c1_counterexample :
    (save_token none "urn1" "tok" none none (some "u1") none none none []) =
      [{ user_id := some "u1", linkedin_user_urn := some "urn1",
         access_token := some "tok", refresh_token := none,
         github_username := none, github_access_token := none,
         expires_at := none, scopes := none, is_encrypted := some 1 }] ∧
    startsWithTag "tok" = false := by
  constructor
  · decide
  · decide

/-- Witness for C1: the row written by a concrete `save_token` under the
identity codec satisfies `rowEncrypted`. -/
theorem c1_witness :
    rowEncrypted
      { user_id := some "u1", linkedin_user_urn := some "urn1",
        access_token := some "ENC:tokA", refresh_token := none,
        github_username := none, github_access_token := none,
        expires_at := none, scopes := none, is_encrypted := some 1 } := by
  have h := (c1_encrypted_at_rest idCipher idCipher_good).1
    (save_token (some idCipher) "urn1" "tokA" none none (some "u1") none none
      none [])
    (Reachable.save "urn1" "tokA" none none (some "u1") none none none
      Reachable.init)
  exact h _ (by decide)

/-- C3: the claim that a row's `user_id` is never changed in place fails
in the code: the near-expiry refresh path of `get_access_token_for_urn`
persists via `save_token(urn, access, refresh, expires)` with `user_id`
left at its default `None`, and the upsert sets
`user_id = excluded.user_id`, so the refresh write wipes the row's
tenant binding to NULL. Concretely: the row starts bound to
`"tenant1"`, the call refreshes, and afterwards the row's `user_id` is
NULL. -/
theorem c3_refresh_wipes_user_id :
    ((save_token (some idCipher) "urn:li:person:42" "atok" (some "rtok")
        (some 130) (some "tenant1") none none none []).map Row.user_id
      = [some "tenant1"]) ∧
    ((get_access_token_for_urn (some idCipher)
        (fun _ => ⟨"newtok", some "newref", some 1000⟩) 100 "urn:li:person:42"
        60
        (save_token (some idCipher) "urn:li:person:42" "atok" (some "rtok")
          (some 130) (some "tenant1") none none none [])).didRefresh = true) ∧
    ((get_access_token_for_urn (some idCipher)
        (fun _ => ⟨"newtok", some "newref", some 1000⟩) 100 "urn:li:person:42"
        60
        (save_token (some idCipher) "urn:li:person:42" "atok" (some "rtok")
          (some 130) (some "tenant1") none none none [])).db.map Row.user_id
      = [none]) := by
  refine ⟨by decide, by decide, by decide⟩

/-- C10: `delete_token_by_user_id` (modelled from the spec, its definition
being absent from `src/`) returns `true` exactly when a row for the
tenant existed, a subsequent lookup returns not-found, and rows of other
tenants are exactly preserved. -/
theorem c10_delete_by_user_id (f : Option Cipher) (uid : String)
    (db : List Row) :
    ((delete_token_by_user_id uid db).1 = true ↔
      ∃ r ∈ db, r.user_id = some uid) ∧
    (get_token_by_user_id f uid (delete_token_by_user_id uid db).2).1 = none ∧
    (∀ r ∈ db, r.user_id ≠ some uid →
      r ∈ (delete_token_by_user_id uid db).2) ∧
    (∀ r ∈ (delete_token_by_user_id uid db).2,
      r ∈ db ∧ r.user_id ≠ some uid) := by
  refine ⟨?_, ?_, ?_, ?_⟩
  · show (db.any (fun r => r.user_id == some uid) = true ↔ _)
    rw [List.any_eq_true]
    constructor
    · rintro ⟨r, hr, hp⟩
      exact ⟨r, hr, beq_iff_eq.1 hp⟩
    · rintro ⟨r, hr, hp⟩
      exact ⟨r, hr, beq_iff_eq.2 hp⟩
  · have hfind : ((delete_token_by_user_id uid db).2).find?
        (fun r => r.user_id == some uid) = none := by
      rw [List.find?_eq_none]
      intro r hr
      have hb := (List.mem_filter.1 hr).2
      simp only [bne_iff_ne, ne_eq] at hb
      simp only [beq_iff_eq]
      exact hb
    unfold get_token_by_user_id
    rw [hfind]
  · intro r hr hne
    refine List.mem_filter.2 ⟨hr, ?_⟩
    simp only [bne_iff_ne, ne_eq]
    exact hne
  · intro r hr
    have h1 := List.mem_filter.1 hr
    refine ⟨h1.1, ?_⟩
    have := h1.2
    simpa [bne_iff_ne] using this

/-- Witness for C10 at a concrete single-row table. -/
theorem c10_witness :
    (delete_token_by_user_id "u1"
      [{ user_id := some "u1", linkedin_user_urn := some "urn1",
         access_token := some "ENC:atok", refresh_token := none,
         github_username := none, github_access_token := none,
         expires_at := none, scopes := none, is_encrypted := some 1 }]).1
      = true ∧
    (get_token_by_user_id none "u1"
      (delete_token_by_user_id "u1"
        [{ user_id := some "u1", linkedin_user_urn := some "urn1",
           access_token := some "ENC:atok", refresh_token := none,
           github_username := none, github_access_token := none,
           expires_at := none, scopes := none, is_encrypted := some 1 }]).2).1
      = none := by
  have h := c10_delete_by_user_id none "u1"
    [{ user_id := some "u1", linkedin_user_urn := some "urn1",
       access_token := some "ENC:atok", refresh_token := none,
       github_username := none, github_access_token := none,
       expires_at := none, scopes := none, is_encrypted := some 1 }]
  refine ⟨h.1.2 ⟨{ user_id := some "u1", linkedin_user_urn := some "urn1",
                   access_token := some "ENC:atok", refresh_token := none,
                   github_username := none, github_access_token := none,
                   expires_at := none, scopes := none,
                   is_encrypted := some 1 },
    by decide, by decide⟩, h.2.1⟩

/-- C9 (amended): `get_connection_status` depends only on the non-secret
fields — two table states that differ only in the three token columns
give identical results — and, whenever the stored non-secret fields are
themselves tag-free, no string in the result carries the `ENC:` prefix.
(A stored non-secret field such as `github_username` is returned
verbatim, so a tag-prefixed username would appear in the result — see
the counterexample.) -/
theorem c9_status_no_secrets :
    (∀ (uid : String) (db1 db2 : List Row), TokensOnlyDiff db1 db2 →
      get_connection_status uid db1 = get_connection_status uid db2) ∧
    (∀ (uid : String) (db : List Row),
      (∀ r ∈ db, tagFreeOpt r.linkedin_user_urn = true ∧
        tagFreeOpt r.github_username = true ∧ tagFreeOpt r.scopes = true) →
      ∀ s ∈ statusStrings (get_connection_status uid db),
        startsWithTag s = false) := by
  constructor
  · intro uid db1 db2 h
    induction h with
    | nil => rfl
    | @cons a b l1 l2 hab htail ih =>
      obtain ⟨h1, h2, h3, h4, h5⟩ := hab
      by_cases hm : (a.user_id == some uid) = true
      · have hmb : (b.user_id == some uid) = true := by rw [← h1]; exact hm
        unfold get_connection_status
        simp only [List.find?_cons, hm, hmb]
        rw [h2, h3, h4, h5]
      · have hma : (a.user_id == some uid) = false := by simpa using hm
        have hmb : (b.user_id == some uid) = false := by rw [← h1]; exact hma
        unfold get_connection_status
        simp only [List.find?_cons, hma, hmb]
        exact ih
  · intro uid db hfree s hs
    unfold get_connection_status at hs
    cases hf : db.find? (fun r => r.user_id == some uid) with
    | none =>
      rw [hf] at hs
      simp [statusStrings] at hs
    | some r =>
      rw [hf] at hs
      have hr := hfree r (List.mem_of_find?_eq_some hf)
      simp only [statusStrings, List.mem_cons, List.mem_singleton,
        List.not_mem_nil, or_false] at hs
      rcases hs with rfl | rfl | rfl
      · cases hu : r.linkedin_user_urn with
        | none => decide
        | some v =>
          have h' := hr.1
          rw [hu] at h'
          simpa [tagFreeOpt] using h'
      · cases hu : r.github_username with
        | none => decide
        | some v =>
          have h' := hr.2.1
          rw [hu] at h'
          simpa [tagFreeOpt] using h'
      · cases hu : r.scopes with
        | none => decide
        | some v =>
          have h' := hr.2.2
          rw [hu] at h'
          simpa [tagFreeOpt] using h'

/-- C9 counterexample: a reachable state in which a status string carries
the `ENC:` prefix — `save_token` stores the caller-supplied
`github_username` verbatim, and `get_connection_status` returns it. -/
theorem c9_counterexample :
    "ENC:evil" ∈ statusStrings (get_connection_status "u1"
      (save_token none "urn1" "tok" none none (some "u1") (some "ENC:evil")
        none none [])) ∧
    startsWithTag "ENC:evil" = true := by
  constructor
  · decide
  · decide

/-- Witness for C9: two concrete single-row states differing only in the
token columns give the same status, and a tag-free concrete state yields
no tagged status string. -/
theorem c9_witness :
    get_connection_status "u1"
      [{ user_id := some "u1", linkedin_user_urn := some "urn1",
         access_token := some "ENC:a1", refresh_token := some "ENC:r1",
         github_username := some "gh", github_access_token := some "ENC:g1",
         expires_at := some 99, scopes := some "w", is_encrypted := some 1 }] =
    get_connection_status "u1"
      [{ user_id := some "u1", linkedin_user_urn := some "urn1",
         access_token := some "ENC:a2", refresh_token := none,
         github_username := some "gh", github_access_token := none,
         expires_at := some 99, scopes := some "w", is_encrypted := some 1 }] :=
  (c9_status_no_secrets.1 "u1" _ _
    (List.Forall₂.cons ⟨rfl, rfl, rfl, rfl, rfl⟩ List.Forall₂.nil))

/-- `get_access_token_for_urn` on a successful read, written out by
branch. -/
theorem auth_of_read (f : Option Cipher) (refreshFn : String → RefreshResp)
    (now : Int) (urn : String) (buf : Int) (db db1 : List Row) (row2 : Row)
    (hread : get_token_by_urn f urn db = (some row2, db1)) :
    get_access_token_for_urn f refreshFn now urn buf db =
      (if needsRefresh row2.expires_at now buf then
        (if truthyStr row2.refresh_token then
          AuthResult.ok (some (refreshFn (row2.refresh_token.getD "")).access_token)
            true
            (save_token f urn (refreshFn (row2.refresh_token.getD "")).access_token
              (refreshFn (row2.refresh_token.getD "")).refresh_token
              (refreshFn (row2.refresh_token.getD "")).expires_at
              none none none none db1)
        else AuthResult.err AuthErr.RefreshUnavailable db1)
      else AuthResult.ok row2.access_token false db1) := by
  unfold get_access_token_for_urn
  rw [hread]

/-- `get_access_token_for_urn` on a failed read. -/
theorem auth_of_read_none (f : Option Cipher) (refreshFn : String → RefreshResp)
    (now : Int) (urn : String) (buf : Int) (db db1 : List Row)
    (hread : get_token_by_urn f urn db = (none, db1)) :
    get_access_token_for_urn f refreshFn now urn buf db =
      AuthResult.err AuthErr.NoCredential db1 := by
  unfold get_access_token_for_urn
  rw [hread]

/-- The near-expiry test holds exactly for a nonzero set expiry within
the buffer. -/
theorem needsRefresh_iff (e : Option Int) (now buf : Int) :
    needsRefresh e now buf = true ↔
      ∃ t : Int, e = some t ∧ t ≠ 0 ∧ t - now ≤ buf := by
  cases e with
  | none => simp [needsRefresh]
  | some t => simp [needsRefresh]

/-- Reading an already-encrypted row found by urn. -/
theorem get_by_urn_encrypted (f : Option Cipher) (urn : String)
    (db : List Row) (row : Row)
    (hfind : db.find? (fun r => r.linkedin_user_urn == some urn) = some row)
    (henc : row.is_encrypted = some 1) :
    get_token_by_urn f urn db = (some (decRow f row), db) := by
  unfold get_token_by_urn
  rw [hfind]
  have h2 : migrate_if_plaintext f row db = (decRow f row, db) := by
    unfold migrate_if_plaintext
    rw [if_pos henc]
  show (some (migrate_if_plaintext f row db).1,
    (migrate_if_plaintext f row db).2) = (some (decRow f row), db)
  rw [h2]

/-- C4: for a stored legacy row (`is_encrypted = 0`, plaintext token
values) and a configured, functioning encryption key, one call to
`get_token_by_user_id` returns the original plaintext values to the
caller, and afterwards the stored row is `is_encrypted = 1` with every
token field tag-prefixed; its tenant binding is untouched. -/
theorem c4_migration_correct (c : Cipher) (hc : GoodCipher c)
    (uid u a rt gt : String) (row : Row) (db : List Row)
    (hfind : db.find? (fun r => r.user_id == some uid) = some row)
    (hflag : row.is_encrypted = some 0)
    (hurn : row.linkedin_user_urn = some u)
    (hacc : row.access_token = some a) (hane : a ≠ "")
    (hat : startsWithTag a = false)
    (hrt : row.refresh_token = some rt) (hrtne : rt ≠ "")
    (hgt : row.github_access_token = some gt) (hgtne : gt ≠ "") :
    (get_token_by_user_id (some c) uid db).1 = some row ∧
    ∃ row2 : Row,
      ((get_token_by_user_id (some c) uid db).2).find?
        (fun r => r.user_id == some uid) = some row2 ∧
      row2.is_encrypted = some 1 ∧
      (∃ ct, row2.access_token = some (encTag ++ ct)) ∧
      (∃ ct, row2.refresh_token = some (encTag ++ ct)) ∧
      (∃ ct, row2.github_access_token = some (encTag ++ ct)) ∧
      row2.user_id = row.user_id := by
  have hmig : migrate_if_plaintext (some c) row db =
      (row, db.map (migUpdate (some c) row)) := by
    unfold migrate_if_plaintext
    rw [if_neg (by simp [hflag]), if_neg (by simp [hacc, is_encrypted_val, hat])]
  have hcond : (matchesUrn row.linkedin_user_urn row && unencFlag row) = true := by
    simp [matchesUrn, unencFlag, hurn, hflag]
  have hrow2 : migUpdate (some c) row row =
      { row with
        access_token := some (encrypt_value (some c) (row.access_token.getD ""))
        refresh_token := encOptOf (some c) row.refresh_token
        github_access_token := encOptOf (some c) row.github_access_token
        is_encrypted := some 1 } := by
    unfold migUpdate
    rw [if_pos hcond]
  constructor
  · unfold get_token_by_user_id
    rw [hfind]
    show some (migrate_if_plaintext (some c) row db).1 = some row
    rw [hmig]
  · refine ⟨migUpdate (some c) row row, ?_, ?_, ?_, ?_, ?_, ?_⟩
    · unfold get_token_by_user_id
      rw [hfind]
      show ((migrate_if_plaintext (some c) row db).2).find?
        (fun r => r.user_id == some uid) = some (migUpdate (some c) row row)
      rw [hmig]
      show (db.map (migUpdate (some c) row)).find?
        (fun r => r.user_id == some uid) = some (migUpdate (some c) row row)
      rw [find?_map_pres _ _ (fun r => by rw [migUpdate_user]) db, hfind]
      rfl
    · rw [hrow2]
    · obtain ⟨ct, hct⟩ := encrypt_tagged c hc a hane
      refine ⟨ct, ?_⟩
      rw [hrow2]
      show some (encrypt_value (some c) (row.access_token.getD "")) =
        some (encTag ++ ct)
      rw [hacc]
      show some (encrypt_value (some c) a) = some (encTag ++ ct)
      rw [hct]
    · obtain ⟨ct, hct⟩ := encrypt_tagged c hc rt hrtne
      refine ⟨ct, ?_⟩
      rw [hrow2]
      show encOptOf (some c) row.refresh_token = some (encTag ++ ct)
      unfold encOptOf
      rw [hrt]
      rw [if_pos (by simp [truthyStr, hrtne])]
      show some (encrypt_value (some c) rt) = some (encTag ++ ct)
      rw [hct]
    · obtain ⟨ct, hct⟩ := encrypt_tagged c hc gt hgtne
      refine ⟨ct, ?_⟩
      rw [hrow2]
      show encOptOf (some c) row.github_access_token = some (encTag ++ ct)
      unfold encOptOf
      rw [hgt]
      rw [if_pos (by simp [truthyStr, hgtne])]
      show some (encrypt_value (some c) gt) = some (encTag ++ ct)
      rw [hct]
    · rw [hrow2]

/-- Witness for C4 at a concrete legacy row under the identity codec. -/
theorem c4_witness :
    (get_token_by_user_id (some idCipher) "u1" [legacyRow]).1 = some legacyRow :=
  (c4_migration_correct idCipher idCipher_good "u1" "urn1" "pa" "pr" "pg"
    legacyRow [legacyRow] (by decide) rfl rfl rfl (by decide) (by decide)
    rfl (by decide) rfl (by decide)).1

/-- Pointwise-equal maps over the same list agree. -/
theorem map_congr_mem {g h : Row → Row} {db : List Row}
    (hgh : ∀ r ∈ db, g r = h r) : db.map g = db.map h := by
  induction db with
  | nil => rfl
  | cons a l ih =>
    rw [List.map_cons, List.map_cons, hgh a (by simp),
      ih (fun r hr => hgh r (by simp [hr]))]

/-- The conditional migration update is idempotent on every row: a row it
updated no longer satisfies the WHERE clause. -/
theorem migUpdate_idem (f : Option Cipher) (row r : Row) :
    migUpdate f row (migUpdate f row r) = migUpdate f row r := by
  by_cases h : (matchesUrn row.linkedin_user_urn r && unencFlag r) = true
  · have h1 : migUpdate f row r =
        { r with
          access_token := some (encrypt_value f (row.access_token.getD ""))
          refresh_token := encOptOf f row.refresh_token
          github_access_token := encOptOf f row.github_access_token
          is_encrypted := some 1 } := by
      unfold migUpdate
      rw [if_pos h]
    rw [h1]
    unfold migUpdate
    rw [if_neg (by simp [unencFlag])]
  · have h1 : migUpdate f row r = r := by
      unfold migUpdate
      rw [if_neg h]
    rw [h1]
    exact h1

/-- C5: the legacy-row migration is idempotent. First conjunct: running
the `get_token_by_user_id` read (which performs the migration) twice from
any table state leaves exactly the state one run produces. Second
conjunct: when the fetched row is still unencrypted in memory but no
stored row satisfies the conditional update's WHERE clause any more (the
zero-affected-rows case), the call is a success that changes nothing and
still returns the original row with its plaintext values. -/
theorem c5_migration_idempotent (f : Option Cipher) (uid : String)
    (db : List Row) :
    ((get_token_by_user_id f uid ((get_token_by_user_id f uid db).2)).2 =
      (get_token_by_user_id f uid db).2) ∧
    (∀ (row : Row) (db2 : List Row), row.is_encrypted = some 0 →
      is_encrypted_val (row.access_token.getD "") = false →
      (∀ r ∈ db2, (matchesUrn row.linkedin_user_urn r && unencFlag r) = false) →
      migrate_if_plaintext f row db2 = (row, db2)) := by
  constructor
  · cases hf : db.find? (fun r => r.user_id == some uid) with
    | none =>
      have h1 : get_token_by_user_id f uid db = (none, db) := by
        unfold get_token_by_user_id
        rw [hf]
      rw [h1]
      show (get_token_by_user_id f uid db).2 = db
      rw [h1]
    | some row =>
      have h1 : get_token_by_user_id f uid db =
          (some (migrate_if_plaintext f row db).1,
            (migrate_if_plaintext f row db).2) := by
        unfold get_token_by_user_id
        rw [hf]
      by_cases hflag : row.is_encrypted = some 1
      · have h2 : migrate_if_plaintext f row db = (decRow f row, db) := by
          unfold migrate_if_plaintext
          rw [if_pos hflag]
        rw [h1, h2]
        show (get_token_by_user_id f uid db).2 = db
        rw [h1, h2]
      · by_cases htag : is_encrypted_val (row.access_token.getD "") = true
        · have h2 : migrate_if_plaintext f row db = (row, db) := by
            unfold migrate_if_plaintext
            rw [if_neg hflag, if_pos htag]
          rw [h1, h2]
          show (get_token_by_user_id f uid db).2 = db
          rw [h1, h2]
        · have h2 : migrate_if_plaintext f row db =
              (row, db.map (migUpdate f row)) := by
            unfold migrate_if_plaintext
            rw [if_neg hflag, if_neg htag]
          have hfind2 : (db.map (migUpdate f row)).find?
              (fun r => r.user_id == some uid) =
              some (migUpdate f row row) := by
            rw [find?_map_pres _ _ (fun r => by rw [migUpdate_user]) db, hf]
            rfl
          rw [h1, h2]
          show (get_token_by_user_id f uid (db.map (migUpdate f row))).2 =
            db.map (migUpdate f row)
          unfold get_token_by_user_id
          rw [hfind2]
          show (migrate_if_plaintext f (migUpdate f row row)
            (db.map (migUpdate f row))).2 = db.map (migUpdate f row)
          by_cases hcond :
              (matchesUrn row.linkedin_user_urn row && unencFlag row) = true
          · have hg : (migUpdate f row row).is_encrypted = some 1 := by
              unfold migUpdate
              rw [if_pos hcond]
            exact migrate_under_inv hg
          · have hg : migUpdate f row row = row := by
              unfold migUpdate
              rw [if_neg hcond]
            rw [hg]
            have h3 : migrate_if_plaintext f row (db.map (migUpdate f row)) =
                (row, (db.map (migUpdate f row)).map (migUpdate f row)) := by
              unfold migrate_if_plaintext
              rw [if_neg hflag, if_neg htag]
            rw [h3]
            show (db.map (migUpdate f row)).map (migUpdate f row) =
              db.map (migUpdate f row)
            rw [List.map_map]
            exact map_congr_mem (fun r _ => migUpdate_idem f row r)
  · intro row db2 hflag htag hno
    unfold migrate_if_plaintext
    rw [if_neg (by simp [hflag]), if_neg (by simp [htag])]
    have hmap : db2.map (migUpdate f row) = db2 := by
      apply map_id_of_mem
      intro r hr
      unfold migUpdate
      rw [if_neg (by simp [hno r hr])]
    rw [hmap]

/-- Witness for C5: the double read at a concrete legacy single-row table
with no key configured, and the zero-affected-rows migration at a
concrete already-migrated table. -/
theorem c5_witness :
    ((get_token_by_user_id none "u1"
        ((get_token_by_user_id none "u1" [legacyRow]).2)).2 =
      (get_token_by_user_id none "u1" [legacyRow]).2) ∧
    migrate_if_plaintext none legacyRow [migratedRow] =
      (legacyRow, [migratedRow]) := by
  have h := c5_migration_idempotent none "u1" [legacyRow]
  exact ⟨h.1, h.2 legacyRow [migratedRow] rfl (by decide) (by decide)⟩

/-- C7 (amended): for a stored, already-encrypted record with a (usable)
refresh token and `refresh_buffer = 60`, the provider refresh endpoint is
called exactly when `expires_at` is set, nonzero, and at most 60 seconds
after `now` (the code's Python truthiness treats a stored expiry of `0`
as unset — see the counterexample); and when no refresh is due, the call
returns the stored access token (decrypted) unchanged and writes nothing
to the store. -/
theorem c7_refresh_exactly_when (f : Option Cipher)
    (refreshFn : String → RefreshResp) (now : Int) (urn : String)
    (db : List Row) (row : Row)
    (hfind : db.find? (fun r => r.linkedin_user_urn == some urn) = some row)
    (henc : row.is_encrypted = some 1)
    (hrt : decrypt_value f (row.refresh_token.getD "") ≠ "") :
    ((get_access_token_for_urn f refreshFn now urn 60 db).didRefresh = true ↔
      ∃ t : Int, row.expires_at = some t ∧ t ≠ 0 ∧ t - now ≤ 60) ∧
    (¬ (∃ t : Int, row.expires_at = some t ∧ t ≠ 0 ∧ t - now ≤ 60) →
      get_access_token_for_urn f refreshFn now urn 60 db =
        AuthResult.ok (some (decrypt_value f (row.access_token.getD "")))
          false db) := by
  have hread : get_token_by_urn f urn db = (some (decRow f row), db) :=
    get_by_urn_encrypted f urn db row hfind henc
  have hmain := auth_of_read f refreshFn now urn 60 db db (decRow f row) hread
  have htr : truthyStr (decRow f row).refresh_token = true := by
    show truthyStr (some (decrypt_value f (row.refresh_token.getD ""))) = true
    simpa [truthyStr] using hrt
  constructor
  · by_cases hn : needsRefresh row.expires_at now 60 = true
    · rw [hmain, if_pos (show needsRefresh (decRow f row).expires_at now 60 = true
        from hn), if_pos htr]
      exact ⟨fun _ => (needsRefresh_iff _ _ _).1 hn, fun _ => rfl⟩
    · rw [hmain, if_neg (show ¬ needsRefresh (decRow f row).expires_at now 60 = true
        from hn)]
      exact ⟨fun h => (Bool.false_ne_true h).elim,
        fun hex => (hn ((needsRefresh_iff _ _ _).2 hex)).elim⟩
  · intro hnex
    have hn : ¬ needsRefresh row.expires_at now 60 = true :=
      fun hcon => hnex ((needsRefresh_iff _ _ _).1 hcon)
    rw [hmain, if_neg (show ¬ needsRefresh (decRow f row).expires_at now 60 = true
      from hn)]
    rfl

/-- C7 counterexample. Left: a record with a refresh token and
`expires_at = 0` — in the past, hence within any buffer — is not
refreshed, because Python truthiness treats `0` as no expiry. Right: in
the non-refresh case on a legacy plaintext record the read does write to
the store (the automatic migration), so "no write" does not hold as
stated. -/
theorem c7_counterexample :
    (((get_access_token_for_urn (some idCipher)
        (fun _ => ⟨"n", some "nr", some 1000⟩) 100 "urn1" 60
        [rowExp0]).didRefresh = false) ∧
      rowExp0.expires_at = some 0 ∧ ((0 : Int) - 100 ≤ 60)) ∧
    (((get_access_token_for_urn (some idCipher)
        (fun _ => ⟨"n", some "nr", some 1000⟩) 100 "urn1" 60
        [legacyFarRow]).didRefresh = false) ∧
      (get_access_token_for_urn (some idCipher)
        (fun _ => ⟨"n", some "nr", some 1000⟩) 100 "urn1" 60
        [legacyFarRow]).db ≠ [legacyFarRow]) := by
  refine ⟨⟨by decide, by decide, by decide⟩, ⟨by decide, by decide⟩⟩

/-- Witness for C7 at a concrete near-expiry record (30 seconds to
expiry, buffer 60: refresh happens) under the identity codec. -/
theorem c7_witness :
    (get_access_token_for_urn (some idCipher)
      (fun _ => ⟨"n", some "nr", some 1000⟩) 100 "urn1" 60
      [{ user_id := some "u1", linkedin_user_urn := some "urn1",
         access_token := some "ENC:atok", refresh_token := some "ENC:rtok",
         github_username := none, github_access_token := none,
         expires_at := some 130, scopes := none,
         is_encrypted := some 1 }]).didRefresh = true := by
  have h := (c7_refresh_exactly_when (some idCipher)
    (fun _ => ⟨"n", some "nr", some 1000⟩) 100 "urn1"
    [{ user_id := some "u1", linkedin_user_urn := some "urn1",
       access_token := some "ENC:atok", refresh_token := some "ENC:rtok",
       github_username := none, github_access_token := none,
       expires_at := some 130, scopes := none, is_encrypted := some 1 }]
    { user_id := some "u1", linkedin_user_urn := some "urn1",
      access_token := some "ENC:atok", refresh_token := some "ENC:rtok",
      github_username := none, github_access_token := none,
      expires_at := some 130, scopes := none, is_encrypted := some 1 }
    (by decide) rfl (by decide)).1
  exact h.2 ⟨130, rfl, by decide, by decide⟩

/-- When a row is found for the urn, the call cannot fail with
`NoCredential`. -/
theorem auth_errKind_of_found (f : Option Cipher)
    (refreshFn : String → RefreshResp) (now : Int) (urn : String) (buf : Int)
    (db : List Row) (row : Row)
    (hfn : db.find? (fun r => r.linkedin_user_urn == some urn) = some row) :
    (get_access_token_for_urn f refreshFn now urn buf db).errKind ≠
      some AuthErr.NoCredential := by
  have hread : get_token_by_urn f urn db =
      (some (migrate_if_plaintext f row db).1,
        (migrate_if_plaintext f row db).2) := by
    unfold get_token_by_urn
    rw [hfn]
  rw [auth_of_read f refreshFn now urn buf db _ _ hread]
  split
  · split
    · simp [AuthResult.errKind]
    · simp [AuthResult.errKind]
  · simp [AuthResult.errKind]

/-- C8 (amended): `get_access_token_for_urn` fails with `NoCredential`
exactly when no record is stored for the urn, and it then returns no
token and leaves the table untouched. For a stored, already-encrypted
record it fails with `RefreshUnavailable` exactly when the near-expiry
test fires (`expires_at` set, nonzero, within the buffer — Python
truthiness exempts a stored `0`) and the decrypted refresh token is
empty/absent; it then returns no token and leaves the table as the read
left it (unchanged for an encrypted record; a legacy record is still
migrated by the read — see the counterexample). -/
theorem c8_error_kinds (f : Option Cipher) (refreshFn : String → RefreshResp)
    (now : Int) (urn : String) (buf : Int) (db : List Row) :
    ((get_access_token_for_urn f refreshFn now urn buf db).errKind =
        some AuthErr.NoCredential ↔
      db.find? (fun r => r.linkedin_user_urn == some urn) = none) ∧
    (db.find? (fun r => r.linkedin_user_urn == some urn) = none →
      get_access_token_for_urn f refreshFn now urn buf db =
        AuthResult.err AuthErr.NoCredential db) ∧
    (∀ row : Row,
      db.find? (fun r => r.linkedin_user_urn == some urn) = some row →
      row.is_encrypted = some 1 →
      (((get_access_token_for_urn f refreshFn now urn buf db).errKind =
          some AuthErr.RefreshUnavailable) ↔
        (needsRefresh row.expires_at now buf = true ∧
          decrypt_value f (row.refresh_token.getD "") = "")) ∧
      ((get_access_token_for_urn f refreshFn now urn buf db).errKind =
          some AuthErr.RefreshUnavailable →
        get_access_token_for_urn f refreshFn now urn buf db =
          AuthResult.err AuthErr.RefreshUnavailable db)) := by
  refine ⟨?_, ?_, ?_⟩
  · cases hfn : db.find? (fun r => r.linkedin_user_urn == some urn) with
    | none =>
      have hread : get_token_by_urn f urn db = (none, db) := by
        unfold get_token_by_urn
        rw [hfn]
      rw [auth_of_read_none f refreshFn now urn buf db db hread]
      simp [AuthResult.errKind]
    | some row =>
      have hne := auth_errKind_of_found f refreshFn now urn buf db row hfn
      constructor
      · intro h
        exact absurd h hne
      · intro h
        exact Option.noConfusion h
  · intro hfn
    have hread : get_token_by_urn f urn db = (none, db) := by
      unfold get_token_by_urn
      rw [hfn]
    exact auth_of_read_none f refreshFn now urn buf db db hread
  · intro row hfn henc
    have hread := get_by_urn_encrypted f urn db row hfn henc
    have hmain := auth_of_read f refreshFn now urn buf db db (decRow f row) hread
    by_cases hn : needsRefresh row.expires_at now buf = true
    · by_cases hd : decrypt_value f (row.refresh_token.getD "") = ""
      · have htr : truthyStr (decRow f row).refresh_token = false := by
          show truthyStr
            (some (decrypt_value f (row.refresh_token.getD ""))) = false
          simp [truthyStr, hd]
        have hres : get_access_token_for_urn f refreshFn now urn buf db =
            AuthResult.err AuthErr.RefreshUnavailable db := by
          rw [hmain,
            if_pos (show needsRefresh (decRow f row).expires_at now buf = true
              from hn),
            if_neg (show ¬ truthyStr (decRow f row).refresh_token = true by
              simp [htr])]
        constructor
        · rw [hres]
          exact ⟨fun _ => ⟨hn, hd⟩, fun _ => rfl⟩
        · intro _
          exact hres
      · have htr : truthyStr (decRow f row).refresh_token = true := by
          show truthyStr
            (some (decrypt_value f (row.refresh_token.getD ""))) = true
          simp [truthyStr, hd]
        have hres : get_access_token_for_urn f refreshFn now urn buf db =
            AuthResult.ok (some (refreshFn
              ((decRow f row).refresh_token.getD "")).access_token) true
              (save_token f urn (refreshFn
                  ((decRow f row).refresh_token.getD "")).access_token
                (refreshFn ((decRow f row).refresh_token.getD "")).refresh_token
                (refreshFn ((decRow f row).refresh_token.getD "")).expires_at
                none none none none db) := by
          rw [hmain,
            if_pos (show needsRefresh (decRow f row).expires_at now buf = true
              from hn), if_pos htr]
        rw [hres]
        constructor
        · exact ⟨fun h => Option.noConfusion h,
            fun hpair => absurd hpair.2 hd⟩
        · intro h
          exact absurd h (by simp [AuthResult.errKind])
    · have hres : get_access_token_for_urn f refreshFn now urn buf db =
          AuthResult.ok (decRow f row).access_token false db := by
        rw [hmain,
          if_neg (show ¬ needsRefresh (decRow f row).expires_at now buf = true
            from hn)]
      rw [hres]
      constructor
      · exact ⟨fun h => Option.noConfusion h, fun hpair => absurd hpair.1 hn⟩
      · intro h
        exact absurd h (by simp [AuthResult.errKind])

/-- C8 counterexample. Left: an expired record (`expires_at = 0`, in the
past) with no refresh token is not failed with `RefreshUnavailable` — the
stored token is returned instead, because Python truthiness treats the
expiry `0` as unset. Right: a legacy plaintext expired record with no
refresh token does fail with `RefreshUnavailable`, but the stored state
is changed by that call (the read migrated the row). -/
theorem c8_counterexample :
    ((get_access_token_for_urn (some idCipher) (fun _ => ⟨"n", none, none⟩)
        100 "urn1" 60 [rowExp0NoR] =
      AuthResult.ok (some "atok") false [rowExp0NoR]) ∧
      rowExp0NoR.expires_at = some 0 ∧ ((0 : Int) - 100 ≤ 60) ∧
      rowExp0NoR.refresh_token = none) ∧
    (((get_access_token_for_urn (some idCipher) (fun _ => ⟨"n", none, none⟩)
        100 "urn1" 60 [legacyNoRefreshRow]).errKind =
      some AuthErr.RefreshUnavailable) ∧
      (get_access_token_for_urn (some idCipher) (fun _ => ⟨"n", none, none⟩)
        100 "urn1" 60 [legacyNoRefreshRow]).db ≠ [legacyNoRefreshRow]) := by
  refine ⟨⟨by decide, by decide, by decide, by decide⟩, ⟨by decide, by decide⟩⟩

/-- Witness for C8: at the empty table the call fails `NoCredential`
leaving the table empty, and at a concrete expired record with no
refresh token it fails `RefreshUnavailable` leaving the record
unchanged. -/
theorem c8_witness :
    (get_access_token_for_urn none (fun _ => ⟨"n", none, none⟩) 100 "urn1" 60
      [] = AuthResult.err AuthErr.NoCredential []) ∧
    (get_access_token_for_urn (some idCipher) (fun _ => ⟨"n", none, none⟩)
      100 "urn1" 60 [rowNoRefresh] =
      AuthResult.err AuthErr.RefreshUnavailable [rowNoRefresh]) := by
  have h1 := c8_error_kinds none (fun _ => ⟨"n", none, none⟩) 100 "urn1" 60 []
  have h2 := c8_error_kinds (some idCipher) (fun _ => ⟨"n", none, none⟩)
    100 "urn1" 60 [rowNoRefresh]
  have h3 := h2.2.2 rowNoRefresh (by decide) rfl
  exact ⟨h1.2.1 rfl, h3.2 (h3.1.2 ⟨by decide, by decide⟩)⟩
